import Mathlib

/-!
Verification of the CSV inventory core of the equipment-inventory-management
system.  The definitions below are a shallow embedding of the TypeScript
sources `src/utils/csvParser.ts` and `src/utils/dataAnalyzer.ts` together
with the data model of `src/types.ts`.

Naming: the TypeScript identifiers are Chinese; Lean identifiers cannot
contain CJK characters, so each field keeps the English name used by the
specification, with the original name recorded in a comment:
  deviceCode    = 设备编号      workLocation = 工作部位
  componentName = 零部件名称    spec         = 型号规格
  quantityText  = 数量及米数    powerText    = 电机功率
  remark        = 备注

JavaScript strings are modeled by Lean `String` (a list of characters);
UTF-16 code-unit comparison coincides with code-point comparison on the
basic multilingual plane, which covers all data handled by this program.
JavaScript numbers arising from `parseFloat` are modeled exactly by their
decimal value as a rational number (mantissa times a power of ten); every
value the program computes is exactly representable this way.
-/

/-- Model of the JavaScript `String.prototype.trim`: drop whitespace from
both ends.  `Char.isWhitespace` covers the whitespace the data contains. -/
def jsTrim (s : String) : String :=
  String.mk (((s.data.dropWhile Char.isWhitespace).reverse.dropWhile
      Char.isWhitespace).reverse)

/-- Model of the JavaScript `String.prototype.toLowerCase` (ASCII folding;
CJK characters are unaffected, as in JavaScript). -/
def jsToLower (s : String) : String :=
  String.mk (s.data.map Char.toLower)

/-- Whether the first character list is a prefix of the second. -/
def startsWithChars : List Char → List Char → Bool
  | [], _ => true
  | _ :: _, [] => false
  | a :: as, b :: bs => a == b && startsWithChars as bs

/-- Whether `needle` occurs contiguously inside `hay`. -/
def containsChars (hay needle : List Char) : Bool :=
  match hay with
  | [] => needle.isEmpty
  | _ :: t => startsWithChars needle hay || containsChars t needle

/-- Model of the JavaScript `haystack.includes(needle)`. -/
def jsIncludes (hay needle : String) : Bool :=
  containsChars hay.data needle.data

/-- Strict UTF-16 code-unit lexicographic comparison of character lists,
the comparison JavaScript applies to strings with `<` and `>`. -/
def lexLt : List Char → List Char → Bool
  | _, [] => false
  | [], _ :: _ => true
  | a :: as, b :: bs => a.toNat < b.toNat || (a.toNat = b.toNat && lexLt as bs)

/-- One physical row of the source file (TypeScript `RawCSVRow`).  Rows
produced by the CSV decoder may lack a column, which in JavaScript reads
as `undefined`; a missing column is modeled by `none`. -/
structure RawCSVRow where
  deviceCode : Option String     -- 设备编号
  workLocation : Option String   -- 工作部位
  componentName : Option String  -- 零部件名称
  spec : Option String           -- 型号规格
  quantityText : Option String   -- 数量及米数
  powerText : Option String      -- 电机功率
  remark : Option String         -- 备注
deriving DecidableEq, Repr

/-- A part installed on a device (TypeScript `Component`).  The source
assigns the id string `component-` followed by a running counter; the
injective rendering is dropped and the counter itself is kept. -/
structure Component where
  id : Nat
  name : String          -- 零部件名称
  spec : String          -- 型号规格
  quantityText : String  -- 数量及米数
  powerText : String     -- 电机功率
  remark : String        -- 备注
deriving DecidableEq, Repr

/-- One machine/asset (TypeScript `Device`); id as in `Component`. -/
structure Device where
  id : Nat
  deviceCode : String    -- 设备编号
  workLocation : String  -- 工作部位
  components : List Component  -- 零部件列表
deriving DecidableEq, Repr

/-- The JavaScript truthy-and-nonblank test
`row.X && row.X.trim() !== ''` applied to a possibly missing cell: it is
equivalent to the trimmed cell (empty for a missing cell) being nonempty. -/
def cellFilled (o : Option String) : Bool :=
  !(jsTrim (o.getD "") == "")

/-- `processInheritance` row filter, first half: the row has some cell
whose trimmed text is nonempty (`Object.values(row).some(...)`). -/
def hasContent (r : RawCSVRow) : Bool :=
  [r.deviceCode, r.workLocation, r.componentName, r.spec,
    r.quantityText, r.powerText, r.remark].any cellFilled

/-- `processInheritance` row filter, second half: a stray repeated header
row (`row.设备编号 === '设备编号' || row.零部件名称 === '零部件名称'`). -/
def isHeaderRow (r : RawCSVRow) : Bool :=
  r.deviceCode == some "设备编号" || r.componentName == some "零部件名称"

/-- A row that survives the filter at the top of `processInheritance`. -/
def validRow (r : RawCSVRow) : Bool :=
  hasContent r && !(isHeaderRow r)

/-- The device-opening test of the reconstruction loop:
`row.设备编号 && row.设备编号.trim() !== ''`. -/
def devCond (r : RawCSVRow) : Bool :=
  cellFilled r.deviceCode

/-- The component test of the reconstruction loop:
`row.零部件名称 && row.零部件名称.trim() !== ''`. -/
def compCond (r : RawCSVRow) : Bool :=
  cellFilled r.componentName

/-- The `Component` literal built inside the loop; every field is trimmed
and defaults to the empty string (`row.X?.trim() || ''`). -/
def mkComponent (cc : Nat) (r : RawCSVRow) : Component :=
  { id := cc
    name := jsTrim (r.componentName.getD "")
    spec := jsTrim (r.spec.getD "")
    quantityText := jsTrim (r.quantityText.getD "")
    powerText := jsTrim (r.powerText.getD "")
    remark := jsTrim (r.remark.getD "") }

/-- The `Device` literal built when a row opens a new device. -/
def mkDevice (dc : Nat) (r : RawCSVRow) : Device :=
  { id := dc
    deviceCode := jsTrim (r.deviceCode.getD "")
    workLocation := jsTrim (r.workLocation.getD "")
    components := [] }

/-- Append a component to the open device
(`currentDevice.零部件列表.push(component)`). -/
def addComponent (d : Device) (c : Component) : Device :=
  { d with components := d.components ++ [c] }

/-- The reconstruction loop of `CSVParser.processInheritance`, written as
explicit recursion over the remaining rows.  The state is the open device
(`currentDevice`, `none` when unset) and the two id counters; devices are
emitted when closed, and the open device is flushed at the end. -/
def processGo : List RawCSVRow → Option Device → Nat → Nat → List Device
  | [], cur, _, _ => cur.toList
  | r :: rest, cur, dc, cc =>
    if devCond r then
      if compCond r then
        cur.toList ++
          processGo rest (some (addComponent (mkDevice dc r) (mkComponent cc r)))
            (dc + 1) (cc + 1)
      else
        cur.toList ++ processGo rest (some (mkDevice dc r)) (dc + 1) cc
    else
      if compCond r then
        match cur with
        | some d => processGo rest (some (addComponent d (mkComponent cc r))) dc (cc + 1)
        | none => processGo rest none dc cc
      else
        processGo rest cur dc cc

/-- `CSVParser.processInheritance`: filter out all-blank rows and repeated
header rows, then run the inheritance reconstruction. -/
def processInheritance (rows : List RawCSVRow) : List Device :=
  processGo (rows.filter validRow) none 1 1

/-- Total number of components across a device list. -/
def totalComps (l : List Device) : Nat :=
  (l.map (fun d => d.components.length)).sum

/-- Claim-side count for C1: the number of filtered rows with a non-blank
component-name cell occurring at or after the first device-opening row. -/
def compCountFromFirstDev : List RawCSVRow → Nat
  | [] => 0
  | r :: rest =>
    if devCond r then (r :: rest).countP (fun x => compCond x)
    else compCountFromFirstDev rest

/-- TypeScript `ValidationResult`. -/
structure ValidationResult where
  isValid : Bool
  errors : List String
  warnings : List String
deriving DecidableEq, Repr

/-- The `col in firstRow` test of `validateData` for each of the seven
canonical column names; any other name is not a key of a `RawCSVRow`. -/
def hasColumn (r : RawCSVRow) (col : String) : Bool :=
  if col = "设备编号" then r.deviceCode.isSome
  else if col = "工作部位" then r.workLocation.isSome
  else if col = "零部件名称" then r.componentName.isSome
  else if col = "型号规格" then r.spec.isSome
  else if col = "数量及米数" then r.quantityText.isSome
  else if col = "电机功率" then r.powerText.isSome
  else if col = "备注" then r.remark.isSome
  else false

/-- The `requiredColumns` array of `validateData`. -/
def requiredColumns : List String :=
  ["设备编号", "工作部位", "零部件名称", "型号规格", "数量及米数", "电机功率", "备注"]

/-- The optional unit suffix `(kw|KW|千瓦)?` of the power regex under the
case-insensitive flag. -/
def unitTail : List Char → Bool
  | [] => true
  | [a, b] => ((a == 'k' || a == 'K') && (b == 'w' || b == 'W')) ||
      (a == '千' && b == '瓦')
  | _ => false

/-- The loose power format regex of `validateData`,
`/^\d*\.?\d*(kw|KW|千瓦)?$/i`: digits, an optional decimal point, digits,
then an optional unit suffix, anchored at both ends.  The character
classes are disjoint, so the match is deterministic. -/
def powerPattern (s : String) : Bool :=
  let r1 := s.data.dropWhile Char.isDigit
  let r2 := match r1 with
    | '.' :: t => t
    | _ => r1
  unitTail (r2.dropWhile Char.isDigit)

/-- The per-row power-format warnings of `validateData`: for each row
whose power cell is truthy and non-blank after trimming, if the trimmed
text fails the pattern, warn naming the 1-based row number and the text. -/
def powerWarnings (rows : List RawCSVRow) : List String :=
  rows.enum.filterMap (fun p =>
    let power := jsTrim (p.2.powerText.getD "")
    if power ≠ "" && !(powerPattern power) then
      some ("第" ++ toString (p.1 + 1) ++ "行电机功率格式可能不正确: " ++ power)
    else none)

/-- The device/component tally loop of `validateData` skips rows whose
raw device cell is exactly the header label `设备编号`. -/
def notHeaderTally (r : RawCSVRow) : Bool :=
  !(r.deviceCode == some "设备编号")

/-- `CSVParser.validateData`: empty input short-circuits with the single
error `CSV文件为空或无有效数据`; otherwise the missing-column check (from
the shape of the first row), the zero-device error, the zero-component
warning and the per-row power-format warnings run in order, and
`isValid` is the emptiness of the error list. -/
def validateData (rows : List RawCSVRow) : ValidationResult :=
  match rows with
  | [] => { isValid := false, errors := ["CSV文件为空或无有效数据"], warnings := [] }
  | r0 :: _ =>
    let missing := requiredColumns.filter (fun col => !(hasColumn r0 col))
    let colErrs : List String :=
      if missing.length > 0 then
        ["缺少必要的列: " ++ String.intercalate ", " missing]
      else []
    let deviceCount := rows.countP (fun r => notHeaderTally r && devCond r)
    let componentCount := rows.countP (fun r => notHeaderTally r && compCond r)
    let devErrs : List String := if deviceCount = 0 then ["未找到有效的设备数据"] else []
    let compWarns : List String := if componentCount = 0 then ["未找到零部件数据"] else []
    let errors := colErrs ++ devErrs
    { isValid := errors.isEmpty
      errors := errors
      warnings := compWarns ++ powerWarnings rows }

/-- Digit run to a natural number, most significant digit first. -/
def digitsVal (l : List Char) : Nat :=
  l.foldl (fun a c => a * 10 + (c.toNat - 48)) 0

/-- Take an optional sign, returning the sign and the rest. -/
def takeSign : List Char → Int × List Char
  | '+' :: t => (1, t)
  | '-' :: t => (-1, t)
  | l => (1, l)

/-- Model of the JavaScript `parseFloat`: skip leading whitespace, take
the longest prefix that is a signed decimal literal with an optional
exponent, and return its exact value as mantissa and decimal exponent
(`some (m, e)` denotes the value `m * 10 ^ e`); `none` is `NaN`.  The
non-finite literal `Infinity`, which `parseFloat` also accepts, has no
rational value and is treated as unparsable; the program data never
contains it. -/
def parseFloatSci (s : String) : Option (Int × Int) :=
  let l := s.data.dropWhile Char.isWhitespace
  let sr := takeSign l
  let ip := sr.2.takeWhile Char.isDigit
  let r1 := sr.2.dropWhile Char.isDigit
  let fp := match r1 with
    | '.' :: t => t.takeWhile Char.isDigit
    | _ => []
  let r2 := match r1 with
    | '.' :: t => t.dropWhile Char.isDigit
    | _ => r1
  if ip.isEmpty && fp.isEmpty then none
  else
    let mantissa : Int := sr.1 * (digitsVal (ip ++ fp) : Int)
    let exp0 : Int := -(fp.length : Int)
    match r2 with
    | 'e' :: t =>
      let se := takeSign t
      let ed := se.2.takeWhile Char.isDigit
      if ed.isEmpty then some (mantissa, exp0)
      else some (mantissa, exp0 + se.1 * (digitsVal ed : Int))
    | 'E' :: t =>
      let se := takeSign t
      let ed := se.2.takeWhile Char.isDigit
      if ed.isEmpty then some (mantissa, exp0)
      else some (mantissa, exp0 + se.1 * (digitsVal ed : Int))
    | _ => some (mantissa, exp0)

/-- The exact rational value of a decimal scientific pair. -/
def sciVal (m e : Int) : ℚ :=
  if 0 ≤ e then (m : ℚ) * (10 : ℚ) ^ e.toNat
  else (m : ℚ) / (10 : ℚ) ^ (-e).toNat

/-- The characters removed by the `replace(/[kw|KW|千瓦]/gi, '')` call of
`extractPowerValue`: the regex is a character class, so exactly the
characters `k`, `w`, `|`, `千`, `瓦` (case-insensitively) are deleted,
wherever they occur. -/
def unitChar (c : Char) : Bool :=
  c == 'k' || c == 'K' || c == 'w' || c == 'W' || c == '|' || c == '千' || c == '瓦'

/-- Delete every unit character from a string. -/
def stripUnits (s : String) : String :=
  String.mk (s.data.filter (fun c => !(unitChar c)))

/-- The scientific-pair stage of `DataAnalyzer.extractPowerValue`: `none`
both for the blank early return and for a `NaN` parse, which the source
maps to `0`. -/
def powerSci (s : String) : Option (Int × Int) :=
  if jsTrim s = "" then none
  else parseFloatSci (jsTrim (stripUnits s))

/-- `DataAnalyzer.extractPowerValue`: blank text is `0`; otherwise the
unit characters are deleted, the result trimmed and given to
`parseFloat`, and a `NaN` parse falls back to `0`. -/
def extractPowerValue (s : String) : ℚ :=
  match powerSci s with
  | none => 0
  | some p => sciVal p.1 p.2

/-- An insertion-ordered frequency table, modeling a JavaScript
`Record<string, number>` built by `(obj[k] || 0) + 1` updates: bumping an
existing key keeps its position, a new key is appended with count 1. -/
def bump : List (String × Nat) → String → List (String × Nat)
  | [], k => [(k, 1)]
  | (k0, n) :: rest, k =>
    if k0 = k then (k0, n + 1) :: rest else (k0, n) :: bump rest k

/-- Sum of the counts of a frequency table. -/
def sumCounts (m : List (String × Nat)) : Nat :=
  (m.map (fun p => p.2)).sum

/-- The grouping key of the device table: `device.工作部位 || '未分类'`. -/
def locKey (d : Device) : String :=
  if d.workLocation = "" then "未分类" else d.workLocation

/-- The grouping key of the component table: `component.零部件名称 || '未分类'`. -/
def nameKey (c : Component) : String :=
  if c.name = "" then "未分类" else c.name

/-- TypeScript `Statistics`:
  deviceTotal     = 设备总数      componentTotal  = 零部件总数
  powerSum        = 电机功率汇总  deviceByLocation = 设备分类统计
  componentByName = 零部件分类统计 -/
structure Statistics where
  deviceTotal : Nat
  componentTotal : Nat
  powerSum : ℚ
  deviceByLocation : List (String × Nat)
  componentByName : List (String × Nat)
deriving DecidableEq, Repr

/-- `DataAnalyzer.generateStatistics`: the device count, the component
count accumulated by `reduce`, the power sum over every component, and
the two insertion-ordered frequency tables. -/
def generateStatistics (devices : List Device) : Statistics :=
  { deviceTotal := devices.length
    componentTotal := devices.foldl (fun t d => t + d.components.length) 0
    powerSum := devices.foldl
      (fun acc d => d.components.foldl
        (fun a c => a + extractPowerValue c.powerText) acc) 0
    deviceByLocation := devices.foldl (fun m d => bump m (locKey d)) []
    componentByName := devices.foldl
      (fun m d => d.components.foldl (fun m c => bump m (nameKey c)) m) [] }

/-- TypeScript `FilterOptions`; each criterion is optional
(设备编号 / 工作部位 / 零部件名称 / 型号规格). -/
structure FilterOptions where
  deviceCode : Option String
  workLocation : Option String
  componentName : Option String
  spec : Option String
deriving DecidableEq, Repr

/-- One guard of `filterDevices`: the criterion blocks the device only
when it is present and truthy (non-empty) and the case-folded value does
not contain it. -/
def critOk (crit : Option String) (val : String) : Bool :=
  match crit with
  | none => true
  | some f => f == "" || jsIncludes (jsToLower val) (jsToLower f)

/-- One component-level guard of `filterDevices`: some component field
must contain the criterion. -/
def critOkAny (crit : Option String) (vals : List String) : Bool :=
  match crit with
  | none => true
  | some f => f == "" || vals.any (fun v => jsIncludes (jsToLower v) (jsToLower f))

/-- `DataAnalyzer.filterDevices`: all provided criteria are combined with
logical AND; device-level criteria match the device fields, component
criteria match if at least one component satisfies them. -/
def filterDevices (devices : List Device) (filters : FilterOptions) : List Device :=
  devices.filter (fun device =>
    critOk filters.deviceCode device.deviceCode &&
    critOk filters.workLocation device.workLocation &&
    critOkAny filters.componentName (device.components.map (fun c => c.name)) &&
    critOkAny filters.spec (device.components.map (fun c => c.spec)))

/-- Whether a device matches a lower-cased search term: the device fields
or any field of any of its components contain the term. -/
def deviceMatches (device : Device) (t : String) : Bool :=
  jsIncludes (jsToLower device.deviceCode) t ||
  jsIncludes (jsToLower device.workLocation) t ||
  device.components.any (fun c =>
    jsIncludes (jsToLower c.name) t ||
    jsIncludes (jsToLower c.spec) t ||
    jsIncludes (jsToLower c.quantityText) t ||
    jsIncludes (jsToLower c.powerText) t ||
    jsIncludes (jsToLower c.remark) t)

/-- `DataAnalyzer.searchDevices`: a falsy or all-whitespace term returns
the input unchanged; otherwise the term is lower-cased, trimmed and
matched as a substring against every device and component field. -/
def searchDevices (devices : List Device) (searchTerm : String) : List Device :=
  if jsTrim searchTerm = "" then devices
  else devices.filter (fun d => deviceMatches d (jsTrim (jsToLower searchTerm)))

/-- The sort key of `sortDevices` (`keyof Device | keyof Component`).
The id key (a string rendered from the counter in the source) and the
components-array key are omitted from the model; the claims concern only
the data fields. -/
inductive SortField where
  | deviceCode | workLocation | componentName | specKey | quantityText | powerText | remark
deriving DecidableEq, Repr

/-- Sort direction (`asc` or `desc`). -/
inductive SortDirection where
  | asc | desc
deriving DecidableEq, Repr

/-- TypeScript `SortOptions`. -/
structure SortOptions where
  field : SortField
  direction : SortDirection
deriving DecidableEq, Repr

/-- The value lodash `orderBy` reads from a device for a sort key:
devices have only the two string data fields; every component-level key
is absent on a device, so property access yields `undefined` (`none`). -/
def fieldVal (d : Device) : SortField → Option String
  | .deviceCode => some d.deviceCode
  | .workLocation => some d.workLocation
  | _ => none

/-- The non-strict order of the lodash `compareAscending` comparator on
criteria values: plain string comparison by code units, with `undefined`
sorting after every defined value. -/
def optLe (x y : Option String) : Bool :=
  match x, y with
  | none, none => true
  | some _, none => true
  | none, some _ => false
  | some a, some b => !(lexLt b.data a.data)

/-- The effective comparator of `orderBy(devices, [field], [direction])`:
the `desc` direction multiplies the comparator by -1, which swaps the
arguments of the non-strict order. -/
def sortLe (o : SortOptions) (a b : Device) : Bool :=
  match o.direction with
  | .asc => optLe (fieldVal a o.field) (fieldVal b o.field)
  | .desc => optLe (fieldVal b o.field) (fieldVal a o.field)

/-- `DataAnalyzer.sortDevices`, i.e. lodash `orderBy`: a stable sort by
the comparator (the lodash implementation breaks comparator ties by
original index, which is exactly stable insertion sort). -/
def sortDevices (devices : List Device) (o : SortOptions) : List Device :=
  devices.insertionSort (fun a b => sortLe o a b = true)

/-- The result record of `paginateDevices`. -/
structure PageResult where
  data : List Device
  total : Int
  totalPages : Int
deriving DecidableEq, Repr

/-- JavaScript `Math.ceil(a / b)` on integers, for `b ≠ 0`: for a
positive divisor the ceiling is the negated floor of the negation, and
floor division with a positive divisor is Euclidean division; for a
negative divisor Euclidean division itself rounds the quotient up.
Division by zero gives a non-finite JavaScript number, which has no
integer model, and the theorems below restrict to a positive page size. -/
def jsCeilDiv (a b : Int) : Int :=
  if b = 0 then 0
  else if 0 < b then -((-a).ediv b)
  else a.ediv b

/-- JavaScript `Array.prototype.slice(start, stop)` on integer indices:
negative indices count from the end, and the bounds are clamped. -/
def jsSlice {α : Type} (l : List α) (start stop : Int) : List α :=
  let len : Int := l.length
  let s := if start < 0 then max (len + start) 0 else min start len
  let e := if stop < 0 then max (len + stop) 0 else min stop len
  (l.take e.toNat).drop s.toNat

/-- `DataAnalyzer.paginateDevices`: 1-indexed page, ceiling page count,
and a `slice` of the device list. -/
def paginateDevices (devices : List Device) (page pageSize : Int) : PageResult :=
  let total : Int := devices.length
  let startIndex := (page - 1) * pageSize
  { data := jsSlice devices startIndex (startIndex + pageSize)
    total := total
    totalPages := jsCeilDiv total pageSize }

/-- C3 claim-side extraction rule, written from the specification wording:
strip every character that is neither a digit nor a decimal point, parse
the remainder as a floating-point number, and contribute zero for empty
or unparsable text. -/
def specStripAllPower (s : String) : ℚ :=
  match parseFloatSci (String.mk (s.data.filter (fun c => c.isDigit || c == '.'))) with
  | none => 0
  | some p => sciVal p.1 p.2

/-- Modelled from the spec: locale-aware comparison that sorts CJK text
correctly rather than by code-unit order (the dictionary collation of
`localeCompare`).  Chinese characters collate by pinyin romanization; the
table covers the characters exercised by the claims (阿 = a, 把 = ba),
other characters compare as themselves. -/
def pinyinOf (c : Char) : List Char :=
  if c = '阿' then ['a'] else if c = '把' then ['b', 'a'] else [c]

/-- Modelled from the spec: the strict locale-aware order on strings. -/
def zhLocaleLt (a b : String) : Bool :=
  lexLt (a.data.map pinyinOf).flatten (b.data.map pinyinOf).flatten

/-- Trimming only the trailing side, as a list operation. -/
def rtrimList (l : List Char) : List Char :=
  (l.reverse.dropWhile Char.isWhitespace).reverse

/-- C9 invariant on a reconstructed component: non-empty name and every
field fixed by trimming. -/
def componentOK (c : Component) : Bool :=
  !(c.name == "") && (jsTrim c.name == c.name) && (jsTrim c.spec == c.spec) &&
  (jsTrim c.quantityText == c.quantityText) && (jsTrim c.powerText == c.powerText) &&
  (jsTrim c.remark == c.remark)

/-- C9 invariant on a reconstructed device: non-empty device code, fields
fixed by trimming, and every component satisfying `componentOK`. -/
def deviceOK (d : Device) : Bool :=
  !(d.deviceCode == "") && (jsTrim d.deviceCode == d.deviceCode) &&
  (jsTrim d.workLocation == d.workLocation) && d.components.all componentOK

/-- First row of the C2 scenario:
`["HC-001","Loc-A","PartX","Spec1","2KW","",""]`. -/
def c2row1 : RawCSVRow :=
  { deviceCode := some "HC-001", workLocation := some "Loc-A",
    componentName := some "PartX", spec := some "Spec1",
    quantityText := some "2KW", powerText := some "", remark := some "" }

/-- Second row of the C2 scenario:
`["","","PartY","Spec2","","0.5KW",""]`. -/
def c2row2 : RawCSVRow :=
  { deviceCode := some "", workLocation := some "",
    componentName := some "PartY", spec := some "Spec2",
    quantityText := some "", powerText := some "0.5KW", remark := some "" }

/-- Third row of the C2 scenario:
`["HC-002","Loc-B","PartZ","Spec3","1","",""]`. -/
def c2row3 : RawCSVRow :=
  { deviceCode := some "HC-002", workLocation := some "Loc-B",
    componentName := some "PartZ", spec := some "Spec3",
    quantityText := some "1", powerText := some "", remark := some "" }

/-- The three-row input of the C2 scenario. -/
def c2rows : List RawCSVRow := [c2row1, c2row2, c2row3]

/-- A row with the six non-remark columns present (all blank) and the
remark column missing; exercises the missing-column check of C7. -/
def noRemarkRow : RawCSVRow :=
  { deviceCode := some "", workLocation := some "",
    componentName := some "", spec := some "",
    quantityText := some "", powerText := some "", remark := none }

/-- Like `noRemarkRow` but with a device code, so the device tally of the
Validator is positive. -/
def noRemarkDevRow : RawCSVRow :=
  { noRemarkRow with deviceCode := some "HC-1" }

/-- A bare device literal used by concrete instances. -/
def bareDevice (n : Nat) (code : String) : Device :=
  { id := n, deviceCode := code, workLocation := "", components := [] }

/-- Two devices whose codes compare oppositely under code-unit order
(把 is U+628A, 阿 is U+963F) and under Chinese locale collation
(pinyin: 阿 = a before 把 = ba); input for the C4 counterexample. -/
def c4devices : List Device := [bareDevice 1 "把", bareDevice 2 "阿"]

/-- A three-device list for the pagination witness. -/
def c5devices : List Device := [bareDevice 1 "a", bareDevice 2 "b", bareDevice 3 "c"]

section TrimLemmas

variable {α : Type} (p : α → Bool)

/-- Dropping a satisfied prefix twice is the same as dropping it once. -/
theorem dropWhile_dropWhile_self (l : List α) :
    (l.dropWhile p).dropWhile p = l.dropWhile p := by
  induction l with
  | nil => rfl
  | cons x t ih =>
    by_cases h : p x
    · simpa [List.dropWhile_cons, h] using ih
    · simp [List.dropWhile_cons, h]

/-- `dropWhile` returns a suffix, with the dropped part as explicit witness. -/
theorem dropWhile_suffix_witness (l : List α) :
    ∃ t, l = t ++ l.dropWhile p := by
  induction l with
  | nil => exact ⟨[], rfl⟩
  | cons x t ih =>
    by_cases h : p x
    · obtain ⟨u, hu⟩ := ih
      exact ⟨x :: u, by simp [List.dropWhile_cons, h, ← hu]⟩
    · exact ⟨[], by simp [List.dropWhile_cons, h]⟩

/-- `dropWhile` never lengthens a list. -/
theorem dropWhile_length_le (l : List α) :
    (l.dropWhile p).length ≤ l.length := by
  induction l with
  | nil => simp
  | cons x t ih =>
    by_cases h : p x
    · rw [List.dropWhile_cons_of_pos h]
      exact Nat.le_trans ih (Nat.le_succ _)
    · simp [List.dropWhile_cons, h]

/-- A fixed point of `dropWhile` stays a fixed point on any of its
explicit prefixes. -/
theorem dropWhile_eq_self_of_append (m m' rest : List α)
    (hm : m.dropWhile p = m) (he : m = m' ++ rest) :
    m'.dropWhile p = m' := by
  cases m' with
  | nil => rfl
  | cons a t =>
    by_cases h : p a
    · exfalso
      subst he
      rw [List.cons_append, List.dropWhile_cons_of_pos h] at hm
      have hlen := dropWhile_length_le p (t ++ rest)
      rw [hm] at hlen
      simp at hlen
    · simp [List.dropWhile_cons, h]

end TrimLemmas


/-- Right-trimming is idempotent. -/
theorem rtrimList_rtrimList (l : List Char) : rtrimList (rtrimList l) = rtrimList l := by
  simp [rtrimList, dropWhile_dropWhile_self]

/-- Right-trimming keeps the property of having no leading whitespace. -/
theorem dropWhile_rtrimList (l : List Char)
    (h : l.dropWhile Char.isWhitespace = l) :
    (rtrimList l).dropWhile Char.isWhitespace = rtrimList l := by
  obtain ⟨t, ht⟩ := dropWhile_suffix_witness Char.isWhitespace l.reverse
  have hpre : l = rtrimList l ++ t.reverse := by
    have := congrArg List.reverse ht
    simpa [rtrimList] using this
  exact dropWhile_eq_self_of_append Char.isWhitespace l (rtrimList l) t.reverse h hpre

/-- The JavaScript `trim` is idempotent. -/
theorem jsTrim_jsTrim (s : String) : jsTrim (jsTrim s) = jsTrim s := by
  show String.mk _ = String.mk _
  simp only [jsTrim]
  have h1 : ∀ l : List Char,
      ((l.dropWhile Char.isWhitespace).reverse.dropWhile Char.isWhitespace).reverse
        = rtrimList (l.dropWhile Char.isWhitespace) := fun l => rfl
  rw [h1, h1]
  have h2 : (rtrimList (s.data.dropWhile Char.isWhitespace)).dropWhile Char.isWhitespace
      = rtrimList (s.data.dropWhile Char.isWhitespace) :=
    dropWhile_rtrimList _ (dropWhile_dropWhile_self _ _)
  rw [h2, rtrimList_rtrimList]

/-- Components of an appended device list add up. -/
theorem totalComps_append (a b : List Device) :
    totalComps (a ++ b) = totalComps a + totalComps b := by
  simp [totalComps]

/-- The reconstruction loop emits one device per device-opening row, plus
the initially open device. -/
theorem processGo_length (rows : List RawCSVRow) :
    ∀ (cur : Option Device) (dc cc : Nat),
      (processGo rows cur dc cc).length
        = cur.toList.length + rows.countP (fun r => devCond r) := by
  induction rows with
  | nil => intro cur dc cc; simp [processGo]
  | cons r rest ih =>
    intro cur dc cc
    by_cases hd : devCond r
    · by_cases hc : compCond r <;>
        simp [processGo, hd, hc, List.countP_cons, ih] <;> omega
    · by_cases hc : compCond r
      · cases cur with
        | none => simp [processGo, hd, hc, List.countP_cons, ih]
        | some d => simp [processGo, hd, hc, List.countP_cons, ih]
      · simp [processGo, hd, hc, List.countP_cons, ih]

/-- Component totals of a cons. -/
theorem totalComps_cons (d : Device) (l : List Device) :
    totalComps (d :: l) = d.components.length + totalComps l := by
  simp [totalComps]

/-- With a device open, every component row of the remaining input lands
in the output. -/
theorem processGo_comps_some (rows : List RawCSVRow) :
    ∀ (d : Device) (dc cc : Nat),
      totalComps (processGo rows (some d) dc cc)
        = d.components.length + rows.countP (fun r => compCond r) := by
  induction rows with
  | nil => intro d dc cc; simp [processGo, totalComps]
  | cons r rest ih =>
    intro d dc cc
    by_cases hd : devCond r <;> by_cases hc : compCond r <;>
      simp [processGo, hd, hc, List.countP_cons, totalComps_cons, ih,
        addComponent, mkDevice] <;> omega

/-- With no device open, exactly the component rows at or after the first
device-opening row land in the output. -/
theorem processGo_comps_none (rows : List RawCSVRow) :
    ∀ (dc cc : Nat),
      totalComps (processGo rows none dc cc) = compCountFromFirstDev rows := by
  induction rows with
  | nil => intro dc cc; simp [processGo, totalComps, compCountFromFirstDev]
  | cons r rest ih =>
    intro dc cc
    by_cases hd : devCond r
    all_goals by_cases hc : compCond r
    all_goals
      simp [processGo, hd, hc, List.countP_cons, totalComps_cons,
        processGo_comps_some, ih, compCountFromFirstDev,
        addComponent, mkDevice]
    all_goals omega

/-- Claim C1: for every row sequence, the number of devices produced by
`processInheritance` equals the number of filtered rows (header rows and
all-blank rows removed) whose device-identifier cell is non-blank after
trimming, and the total component count across the produced devices
equals the number of filtered rows with a non-blank component-name cell
at or after the first device-opening row; component rows before any
device row contribute nothing. -/
theorem claim_C1_inheritance_counts (rows : List RawCSVRow) :
    (processInheritance rows).length
        = (rows.filter validRow).countP (fun r => devCond r) ∧
    totalComps (processInheritance rows)
        = compCountFromFirstDev (rows.filter validRow) := by
  constructor
  · simpa [processInheritance] using
      processGo_length (rows.filter validRow) none 1 1
  · simpa [processInheritance] using
      processGo_comps_none (rows.filter validRow) 1 1

/-- A component built by the loop satisfies the C9 invariant whenever the
guarding component test holds. -/
theorem mkComponent_ok (cc : Nat) (r : RawCSVRow) (h : compCond r = true) :
    componentOK (mkComponent cc r) = true := by
  simp only [compCond, cellFilled, Bool.not_eq_true', beq_eq_false_iff_ne] at h
  simp [componentOK, mkComponent, jsTrim_jsTrim, h]

/-- A freshly opened device satisfies the C9 invariant whenever the
guarding device test holds. -/
theorem mkDevice_ok (dc : Nat) (r : RawCSVRow) (h : devCond r = true) :
    deviceOK (mkDevice dc r) = true := by
  simp only [devCond, cellFilled, Bool.not_eq_true', beq_eq_false_iff_ne] at h
  simp [deviceOK, mkDevice, jsTrim_jsTrim, h]

/-- Appending an invariant-satisfying component preserves the device
invariant. -/
theorem addComponent_ok (d : Device) (c : Component)
    (hd : deviceOK d = true) (hc : componentOK c = true) :
    deviceOK (addComponent d c) = true := by
  simp only [deviceOK, addComponent, Bool.and_eq_true, List.all_append,
    List.all_cons, List.all_nil] at *
  exact ⟨⟨⟨hd.1.1.1, hd.1.1.2⟩, hd.1.2⟩, hd.2, hc, trivial⟩

/-- Every device emitted by the reconstruction loop satisfies the C9
invariant, provided the open device does. -/
theorem processGo_all_ok (rows : List RawCSVRow) :
    ∀ (cur : Option Device) (dc cc : Nat),
      (∀ d, cur = some d → deviceOK d = true) →
      ∀ x ∈ processGo rows cur dc cc, deviceOK x = true := by
  induction rows with
  | nil =>
    intro cur dc cc hcur x hx
    cases cur with
    | none => simp [processGo] at hx
    | some d => simp [processGo] at hx; subst hx; exact hcur _ rfl
  | cons r rest ih =>
    intro cur dc cc hcur x hx
    by_cases hd : devCond r
    · by_cases hc : compCond r
      · rw [processGo.eq_def] at hx
        simp only [if_pos hd, if_pos hc] at hx
        rcases List.mem_append.mp hx with h1 | h2
        · cases cur with
          | none => simp at h1
          | some d =>
            simp [Option.toList] at h1
            subst h1; exact hcur _ rfl
        · refine ih _ _ _ ?_ x h2
          intro e he
          cases he
          exact addComponent_ok _ _ (mkDevice_ok _ _ hd) (mkComponent_ok _ _ hc)
      · rw [processGo.eq_def] at hx
        simp only [if_pos hd, if_neg hc] at hx
        rcases List.mem_append.mp hx with h1 | h2
        · cases cur with
          | none => simp at h1
          | some d =>
            simp [Option.toList] at h1
            subst h1; exact hcur _ rfl
        · refine ih _ _ _ ?_ x h2
          intro e he
          cases he
          exact mkDevice_ok _ _ hd
    · by_cases hc : compCond r
      · cases cur with
        | none =>
          rw [processGo.eq_def] at hx
          simp only [if_neg hd, if_pos hc] at hx
          exact ih _ _ _ (by intro e he; cases he) x hx
        | some d =>
          rw [processGo.eq_def] at hx
          simp only [if_neg hd, if_pos hc] at hx
          refine ih _ _ _ ?_ x hx
          intro e he
          cases he
          exact addComponent_ok _ _ (hcur _ rfl) (mkComponent_ok _ _ hc)
      · rw [processGo.eq_def] at hx
        simp only [if_neg hd, if_neg hc] at hx
        exact ih _ _ _ hcur x hx

/-- Claim C9: every device produced by `processInheritance` has a
non-empty device code, every component a non-empty name, and every string
field of every produced device and component is fixed by trimming. -/
theorem claim_C9_reconstruction_invariant (rows : List RawCSVRow) :
    ∀ d ∈ processInheritance rows, deviceOK d = true := by
  intro d hd
  exact processGo_all_ok (rows.filter validRow) none 1 1
    (by intro e he; cases he) d hd

/-- Witness for C9 at the concrete C2 scenario input. -/
theorem claim_C9_witness :
    ∃ d, d ∈ processInheritance c2rows ∧ deviceOK d = true := by
  refine ⟨(processInheritance c2rows).head (by decide), ?_, ?_⟩
  · exact List.head_mem _
  · exact claim_C9_reconstruction_invariant c2rows _ (List.head_mem _)

/-- Claim C2: on the three-row scenario input, reconstruction produces
exactly two devices, HC-001 with components PartX and PartY in that order
and HC-002 with the single component PartZ, and the aggregated motor
power equals exactly 0.5 (only the PartY power field parses to a nonzero
number). -/
theorem claim_C2_scenario :
    (processInheritance c2rows).map
        (fun d => (d.deviceCode, d.components.map (fun c => c.name)))
      = [("HC-001", ["PartX", "PartY"]), ("HC-002", ["PartZ"])] ∧
    (processInheritance c2rows).length = 2 ∧
    (generateStatistics (processInheritance c2rows)).powerSum = 1 / 2 := by
  refine ⟨by decide, by decide, ?_⟩
  have hd : processInheritance c2rows =
      [{ id := 1, deviceCode := "HC-001", workLocation := "Loc-A",
         components := [
           { id := 1, name := "PartX", spec := "Spec1",
             quantityText := "2KW", powerText := "", remark := "" },
           { id := 2, name := "PartY", spec := "Spec2",
             quantityText := "", powerText := "0.5KW", remark := "" }] },
       { id := 2, deviceCode := "HC-002", workLocation := "Loc-B",
         components := [
           { id := 3, name := "PartZ", spec := "Spec3",
             quantityText := "1", powerText := "", remark := "" }] }] := by decide
  have h0 : powerSci "" = none := by decide
  have h5 : powerSci "0.5KW" = some (5, -1) := by decide
  rw [hd]
  simp [generateStatistics, extractPowerValue, h0, h5]
  norm_num [sciVal]

/-- Counterexample to C3: the extraction does not strip all non-digit
characters.  On the text `a5` the claimed rule would strip the letter and
parse 5, but the source deletes only the characters of the regex class
`[kw|KW千瓦]`, so `parseFloat` sees the leading letter and returns `NaN`,
which the source maps to 0. -/
theorem claim_C3_counterexample :
    extractPowerValue "a5" = 0 ∧ specStripAllPower "a5" = 5 ∧
    extractPowerValue "a5" ≠ specStripAllPower "a5" := by
  have h1 : powerSci "a5" = none := by decide
  have h2 : parseFloatSci
      (String.mk (("a5" : String).data.filter (fun c => c.isDigit || c == '.')))
      = some (5, 0) := by decide
  have e1 : extractPowerValue "a5" = 0 := by simp [extractPowerValue, h1]
  have e2 : specStripAllPower "a5" = 5 := by
    have h3 : parseFloatSci "5" = some (5, 0) := by decide
    simp [specStripAllPower, h3]
    norm_num [sciVal]
  exact ⟨e1, e2, by rw [e1, e2]; norm_num⟩

/-- Claim C3 (amended): for every power-text string the extraction
deletes exactly the characters `k`, `w`, `|`, `千`, `瓦` of the regex
character class (case-insensitively), trims, and parses the remainder
with `parseFloat` (longest leading decimal prefix); blank input and an
unparsable remainder contribute exactly zero, and the function is total,
so it never raises. -/
theorem claim_C3_amended_extraction (s : String) :
    (jsTrim s = "" → extractPowerValue s = 0) ∧
    (jsTrim s ≠ "" → parseFloatSci (jsTrim (stripUnits s)) = none →
        extractPowerValue s = 0) ∧
    (∀ m e : Int, jsTrim s ≠ "" →
        parseFloatSci (jsTrim (stripUnits s)) = some (m, e) →
        extractPowerValue s = sciVal m e) := by
  refine ⟨?_, ?_, ?_⟩
  · intro h; simp [extractPowerValue, powerSci, h]
  · intro h1 h2; simp [extractPowerValue, powerSci, h1, h2]
  · intro m e h1 h2; simp [extractPowerValue, powerSci, h1, h2]

/-- Witness for the amended C3 at blank, unparsable and unit-suffixed
inputs. -/
theorem claim_C3_amended_witness :
    extractPowerValue " " = 0 ∧ extractPowerValue "abc" = 0 ∧
    extractPowerValue "0.5KW" = sciVal 5 (-1) :=
  ⟨(claim_C3_amended_extraction " ").1 (by decide),
   (claim_C3_amended_extraction "abc").2.1 (by decide) (by decide),
   (claim_C3_amended_extraction "0.5KW").2.2 5 (-1) (by decide) (by decide)⟩

/-- Claim C6: the validation verdict is the emptiness of the error list
(warnings never influence it), and empty input short-circuits to exactly
the single error `CSV文件为空或无有效数据` with no warnings. -/
theorem claim_C6_validator_verdict :
    (∀ rows : List RawCSVRow,
        ((validateData rows).isValid = true ↔ (validateData rows).errors = [])) ∧
    validateData []
      = { isValid := false, errors := ["CSV文件为空或无有效数据"], warnings := [] } := by
  constructor
  · intro rows
    cases rows with
    | nil => simp [validateData]
    | cons r rest => simp [validateData]
  · rfl

/-- Counterexample to C7: a non-empty row sequence whose first row has
the six non-remark columns but lacks the remark column, and which
contains no valid device row, produces TWO errors (the missing-column
error and the zero-device error), not exactly one. -/
theorem claim_C7_counterexample :
    noRemarkRow.remark = none ∧
    noRemarkRow.deviceCode.isSome = true ∧
    noRemarkRow.workLocation.isSome = true ∧
    noRemarkRow.componentName.isSome = true ∧
    noRemarkRow.spec.isSome = true ∧
    noRemarkRow.quantityText.isSome = true ∧
    noRemarkRow.powerText.isSome = true ∧
    (validateData [noRemarkRow]).isValid = false ∧
    (validateData [noRemarkRow]).errors.length = 2 := by decide

/-- Claim C7 (amended): for every non-empty row sequence whose first row
has the six non-remark columns but lacks the remark column, and which
contains at least one non-header row with a non-blank device identifier,
validation fails with exactly one error, naming the remark column. -/
theorem claim_C7_amended_missing_remark (rows : List RawCSVRow)
    (r0 : RawCSVRow) (rest : List RawCSVRow) (hrows : rows = r0 :: rest)
    (h1 : r0.deviceCode.isSome = true) (h2 : r0.workLocation.isSome = true)
    (h3 : r0.componentName.isSome = true) (h4 : r0.spec.isSome = true)
    (h5 : r0.quantityText.isSome = true) (h6 : r0.powerText.isSome = true)
    (h7 : r0.remark = none)
    (hdev : ∃ r ∈ rows, notHeaderTally r = true ∧ devCond r = true) :
    (validateData rows).isValid = false ∧
    (validateData rows).errors = ["缺少必要的列: 备注"] := by
  subst hrows
  have hmiss : requiredColumns.filter (fun col => !(hasColumn r0 col)) = ["备注"] := by
    simp [requiredColumns, hasColumn, h1, h2, h3, h4, h5, h6, h7]
  have hdc : 0 < (r0 :: rest).countP (fun r => notHeaderTally r && devCond r) := by
    obtain ⟨r, hr, hnh, hdv⟩ := hdev
    exact List.countP_pos_iff.mpr ⟨r, hr, by simp [hnh, hdv]⟩
  simp [validateData, hmiss, Nat.pos_iff_ne_zero.mp hdc]
  decide

/-- Witness for the amended C7. -/
theorem claim_C7_amended_witness :
    (validateData [noRemarkDevRow]).isValid = false ∧
    (validateData [noRemarkDevRow]).errors = ["缺少必要的列: 备注"] :=
  claim_C7_amended_missing_remark [noRemarkDevRow] noRemarkDevRow [] rfl
    (by decide) (by decide) (by decide) (by decide) (by decide) (by decide)
    (by decide) (by decide)

/-- Claim C8: the Aggregator is deterministic (both runs on the same list
are the same value), Search with a blank or all-whitespace term is the
identity, and Filter with no criteria provided is the identity (same
elements, same order). -/
theorem claim_C8_noop_identities :
    (∀ ds : List Device, generateStatistics ds = generateStatistics ds) ∧
    (∀ (ds : List Device) (term : String),
        jsTrim term = "" → searchDevices ds term = ds) ∧
    (∀ ds : List Device,
        filterDevices ds
          { deviceCode := none, workLocation := none,
            componentName := none, spec := none } = ds) := by
  refine ⟨fun ds => rfl, ?_, ?_⟩
  · intro ds term h
    simp [searchDevices, h]
  · intro ds
    simp [filterDevices, critOk, critOkAny]

/-- Witness for C8 at a whitespace search term and a concrete list. -/
theorem claim_C8_witness : searchDevices c5devices "  " = c5devices :=
  claim_C8_noop_identities.2.1 c5devices "  " (by decide)

/-- Bumping a key raises the summed counts of the table by exactly one. -/
theorem sumCounts_bump (m : List (String × Nat)) (k : String) :
    sumCounts (bump m k) = sumCounts m + 1 := by
  induction m with
  | nil => simp [bump, sumCounts]
  | cons p rest ih =>
    obtain ⟨k0, n⟩ := p
    by_cases h : k0 = k
    · simp [bump, h, sumCounts]
      omega
    · simp [bump, h, sumCounts] at ih ⊢
      omega

/-- Folding the device-location bump over a list adds its length. -/
theorem sumCounts_foldl_loc (ds : List Device) :
    ∀ m, sumCounts (ds.foldl (fun m d => bump m (locKey d)) m)
      = sumCounts m + ds.length := by
  induction ds with
  | nil => intro m; simp
  | cons d rest ih =>
    intro m
    simp only [List.foldl_cons, ih, sumCounts_bump, List.length_cons]
    omega

/-- Folding the component-name bump over a component list adds its
length. -/
theorem sumCounts_foldl_name (cs : List Component) :
    ∀ m, sumCounts (cs.foldl (fun m c => bump m (nameKey c)) m)
      = sumCounts m + cs.length := by
  induction cs with
  | nil => intro m; simp
  | cons c rest ih =>
    intro m
    simp only [List.foldl_cons, ih, sumCounts_bump, List.length_cons]
    omega

/-- Folding the nested component bump over a device list adds the total
component count. -/
theorem sumCounts_foldl_comp (ds : List Device) :
    ∀ m, sumCounts (ds.foldl
        (fun m d => d.components.foldl (fun m c => bump m (nameKey c)) m) m)
      = sumCounts m + totalComps ds := by
  induction ds with
  | nil => intro m; simp [totalComps]
  | cons d rest ih =>
    intro m
    simp only [List.foldl_cons, ih, sumCounts_foldl_name, totalComps_cons]
    omega

/-- The `reduce` accumulation of the component total equals the component
sum. -/
theorem foldl_add_comps (ds : List Device) :
    ∀ t : Nat, ds.foldl (fun t d => t + d.components.length) t
      = t + totalComps ds := by
  induction ds with
  | nil => intro t; simp [totalComps]
  | cons d rest ih =>
    intro t
    simp only [List.foldl_cons, ih, totalComps_cons]
    omega

/-- Claim C10: the statistics are internally consistent; the device total
equals the summed counts of the work-location table and the component
total equals the summed counts of the component-name table. -/
theorem claim_C10_statistics_consistent (ds : List Device) :
    (generateStatistics ds).deviceTotal
        = sumCounts (generateStatistics ds).deviceByLocation ∧
    (generateStatistics ds).componentTotal
        = sumCounts (generateStatistics ds).componentByName := by
  have hnil : sumCounts [] = 0 := rfl
  constructor
  · simp [generateStatistics, sumCounts_foldl_loc, hnil]
  · simp [generateStatistics, sumCounts_foldl_comp, foldl_add_comps, hnil]

/-- Characters with equal code points are equal. -/
theorem char_toNat_injective {c d : Char} (h : c.toNat = d.toNat) : c = d :=
  Char.eq_of_val_eq (UInt32.ext h)

/-- Code-unit comparison is irreflexive. -/
theorem lexLt_irrefl (l : List Char) : lexLt l l = false := by
  induction l with
  | nil => rfl
  | cons a t ih => simp [lexLt, ih]

/-- Code-unit comparison is asymmetric. -/
theorem lexLt_asymm : ∀ a b : List Char, lexLt a b = true → lexLt b a = false := by
  intro a
  induction a with
  | nil =>
    intro b h
    cases b with
    | nil => simp [lexLt] at h
    | cons y ys => rfl
  | cons x xs ih =>
    intro b h
    cases b with
    | nil => simp [lexLt] at h
    | cons y ys =>
      simp [lexLt] at h ⊢
      rcases h with h | ⟨he, hr⟩
      · exact ⟨by omega, fun hyx => by omega⟩
      · exact ⟨by omega, fun _ => ih ys hr⟩

/-- Code-unit comparison is connected: two mutually non-smaller lists are
equal. -/
theorem lexLt_conn : ∀ a b : List Char, lexLt a b = false → lexLt b a = false → a = b := by
  intro a
  induction a with
  | nil =>
    intro b h1 _
    cases b with
    | nil => rfl
    | cons y ys => simp [lexLt] at h1
  | cons x xs ih =>
    intro b h1 h2
    cases b with
    | nil => simp [lexLt] at h2
    | cons y ys =>
      simp [lexLt] at h1 h2
      have hxy : x = y := char_toNat_injective (by omega)
      subst hxy
      have := ih ys (h1.2 rfl) (h2.2 rfl)
      rw [this]

/-- Code-unit comparison is transitive. -/
theorem lexLt_trans : ∀ a b c : List Char,
    lexLt a b = true → lexLt b c = true → lexLt a c = true := by
  intro a
  induction a with
  | nil =>
    intro b c h1 h2
    cases b with
    | nil => simp [lexLt] at h1
    | cons y ys =>
      cases c with
      | nil => simp [lexLt] at h2
      | cons z zs => rfl
  | cons x xs ih =>
    intro b c h1 h2
    cases b with
    | nil => simp [lexLt] at h1
    | cons y ys =>
      cases c with
      | nil => simp [lexLt] at h2
      | cons z zs =>
        simp [lexLt] at h1 h2 ⊢
        rcases h1 with h1 | ⟨e1, r1⟩ <;> rcases h2 with h2 | ⟨e2, r2⟩
        · left; omega
        · left; omega
        · left; omega
        · right; exact ⟨by omega, ih ys zs r1 r2⟩

/-- The comparator order is reflexive. -/
theorem optLe_refl (x : Option String) : optLe x x = true := by
  cases x with
  | none => rfl
  | some a => simp [optLe, lexLt_irrefl]

/-- The comparator order is total. -/
theorem optLe_total (x y : Option String) : optLe x y = true ∨ optLe y x = true := by
  cases x with
  | none => cases y with
    | none => left; rfl
    | some b => right; rfl
  | some a => cases y with
    | none => left; rfl
    | some b =>
      by_cases h : lexLt b.data a.data = true
      · right
        simp [optLe, lexLt_asymm b.data a.data h]
      · left
        simp [optLe, h]

/-- The comparator order is antisymmetric on values. -/
theorem optLe_antisymm (x y : Option String)
    (h1 : optLe x y = true) (h2 : optLe y x = true) : x = y := by
  cases x with
  | none => cases y with
    | none => rfl
    | some b => simp [optLe] at h1
  | some a => cases y with
    | none => simp [optLe] at h2
    | some b =>
      simp [optLe] at h1 h2
      have : a.data = b.data := lexLt_conn a.data b.data h2 h1
      have hab : a = b := congrArg String.mk this
      rw [hab]

/-- The comparator order is transitive. -/
theorem optLe_trans (x y z : Option String)
    (h1 : optLe x y = true) (h2 : optLe y z = true) : optLe x z = true := by
  cases x with
  | none => cases y with
    | none => exact h2
    | some b => simp [optLe] at h1
  | some a => cases y with
    | none => cases z with
      | none => rfl
      | some c => simp [optLe] at h2
    | some b => cases z with
      | none => rfl
      | some c =>
        simp [optLe] at h1 h2 ⊢
        by_cases hca : lexLt c.data a.data = true
        · by_cases hab : lexLt a.data b.data = true
          · have hcb := lexLt_trans c.data a.data b.data hca hab
            simp [hcb] at h2
          · have heq : a.data = b.data :=
              lexLt_conn a.data b.data (by simpa using hab) h1
            rw [heq] at hca
            simp [hca] at h2
        · simpa using hca

/-- The effective sort comparator is total. -/
theorem sortLe_total (o : SortOptions) (a b : Device) :
    sortLe o a b = true ∨ sortLe o b a = true := by
  cases hdir : o.direction <;> simp [sortLe, hdir] <;> apply optLe_total

/-- The effective sort comparator is transitive. -/
theorem sortLe_trans (o : SortOptions) (a b c : Device)
    (h1 : sortLe o a b = true) (h2 : sortLe o b c = true) :
    sortLe o a c = true := by
  cases hdir : o.direction <;> simp [sortLe, hdir] at h1 h2 ⊢
  · exact optLe_trans _ _ _ h1 h2
  · exact optLe_trans _ _ _ h2 h1

/-- Devices whose sort keys coincide compare as equal. -/
theorem sortLe_of_key_eq (o : SortOptions) (a b : Device)
    (h : fieldVal a o.field = fieldVal b o.field) : sortLe o a b = true := by
  cases hdir : o.direction <;> simp [sortLe, hdir, h, optLe_refl]


/-- Filtering an ordered insertion by a sort-key value: the inserted
device only passes strictly smaller elements, whose keys necessarily
differ from its own, so it lands in front of every element with its own
key. -/
theorem filter_orderedInsert_key (o : SortOptions) (k : Option String)
    (x : Device) (s : List Device) :
    ((s.orderedInsert (fun a b => sortLe o a b = true) x).filter
        (fun d => fieldVal d o.field == k))
      = if (fieldVal x o.field == k) = true then
          x :: s.filter (fun d => fieldVal d o.field == k)
        else s.filter (fun d => fieldVal d o.field == k) := by
  induction s with
  | nil =>
    by_cases hk : (fieldVal x o.field == k) = true <;>
      simp [List.orderedInsert, List.filter, hk]
  | cons y ys ih =>
    by_cases hxy : sortLe o x y = true
    · rw [List.orderedInsert, if_pos hxy]
      by_cases hk : (fieldVal x o.field == k) = true <;>
        simp [List.filter_cons, hk]
    · rw [List.orderedInsert, if_neg hxy]
      by_cases hyk : (fieldVal y o.field == k) = true
      · by_cases hxk : (fieldVal x o.field == k) = true
        · exfalso
          apply hxy
          apply sortLe_of_key_eq
          rw [beq_iff_eq.mp hxk, beq_iff_eq.mp hyk]
        · simp [List.filter_cons, hyk, hxk, ih]
      · by_cases hxk : (fieldVal x o.field == k) = true <;>
          simp [List.filter_cons, hyk, hxk, ih]

/-- The sort is stable: for every sort-key value, the devices carrying
that value appear in the output in their original order. -/
theorem sortDevices_stable (ds : List Device) (o : SortOptions)
    (k : Option String) :
    (sortDevices ds o).filter (fun d => fieldVal d o.field == k)
      = ds.filter (fun d => fieldVal d o.field == k) := by
  induction ds with
  | nil => rfl
  | cons d t ih =>
    show ((t.insertionSort fun a b => sortLe o a b = true).orderedInsert
        (fun a b => sortLe o a b = true) d).filter
        (fun d => fieldVal d o.field == k) = _
    rw [filter_orderedInsert_key]
    by_cases hk : (fieldVal d o.field == k) = true
    · simp [hk, List.filter_cons, sortDevices] at ih ⊢
      exact ih
    · simp [hk, List.filter_cons, sortDevices] at ih ⊢
      exact ih

/-- Counterexample to C4: sorting by device code ascending leaves
把 (U+628A) before 阿 (U+963F) because lodash compares raw code units,
while a locale-aware comparison of the claimed kind must place 阿
(pinyin a) before 把 (pinyin ba). -/
theorem claim_C4_counterexample :
    (sortDevices c4devices
        { field := SortField.deviceCode, direction := SortDirection.asc }).map
        (fun d => d.deviceCode) = ["把", "阿"] ∧
    zhLocaleLt "阿" "把" = true ∧ zhLocaleLt "把" "阿" = false := by
  refine ⟨?_, by decide, by decide⟩
  decide

/-- Claim C4 (amended): for every device list, sort field and direction,
the Sort operation is a stable sort by the raw field value compared in
UTF-16 code-unit order, with absent (component-level) fields sorting
after present ones; it performs no locale-aware collation and no numeric
parsing of quantity or power text.  Stability is stated per key value:
the subsequence carrying any fixed key keeps its original order. -/
theorem claim_C4_amended_sort (ds : List Device) (o : SortOptions) :
    (sortDevices ds o).Perm ds ∧
    List.Sorted (fun a b => sortLe o a b = true) (sortDevices ds o) ∧
    (∀ k : Option String,
      (sortDevices ds o).filter (fun d => fieldVal d o.field == k)
        = ds.filter (fun d => fieldVal d o.field == k)) := by
  refine ⟨List.perm_insertionSort _ _, ?_, fun k => sortDevices_stable ds o k⟩
  haveI : IsTotal Device (fun a b => sortLe o a b = true) := ⟨sortLe_total o⟩
  haveI : IsTrans Device (fun a b => sortLe o a b = true) :=
    ⟨fun a b c => sortLe_trans o a b c⟩
  exact List.sorted_insertionSort _ _

/-- The natural ceiling division satisfies the ceiling lower bound. -/
theorem nat_le_ceil_mul (n pn : Nat) (h : 1 ≤ pn) :
    n ≤ pn * ((n + (pn - 1)) / pn) := by
  have hNr := Nat.div_add_mod (n + (pn - 1)) pn
  have hm : (n + (pn - 1)) % pn < pn := Nat.mod_lt _ (by omega)
  omega

/-- `jsCeilDiv` of naturals with a positive divisor is the natural
ceiling division `(n + p - 1) / p`. -/
theorem jsCeilDiv_nat (n pn : Nat) (hpn : 1 ≤ pn) :
    jsCeilDiv (n : Int) (pn : Int) = (((n + (pn - 1)) / pn : Nat) : Int) := by
  have hp0 : (pn : Int) ≠ 0 := by omega
  have hppos : (0 : Int) < (pn : Int) := by omega
  rw [jsCeilDiv, if_neg hp0, if_pos hppos]
  have hNr := Nat.div_add_mod (n + (pn - 1)) pn
  have hmlt : (n + (pn - 1)) % pn < pn := Nat.mod_lt _ (by omega)
  obtain ⟨N, hN⟩ : ∃ N, (n + (pn - 1)) / pn = N := ⟨_, rfl⟩
  obtain ⟨m, hm⟩ : ∃ m, (n + (pn - 1)) % pn = m := ⟨_, rfl⟩
  rw [hN, hm] at hNr
  rw [hm] at hmlt
  rw [hN]
  have hmul : ((pn : Int)) * (-(N : Int)) = -(((pn * N : Nat) : Int)) := by
    push_cast
    ring
  have hed : (-(n : Int)).ediv (pn : Int) = -(N : Int) :=
    ((@Int.ediv_emod_unique (-(n : Int)) (pn : Int)
        (((pn * N : Nat) : Int) - n) (-(N : Int)) hppos).mpr
      ⟨by omega, by omega, by omega⟩).1
  rw [hed]
  omega

/-- A JavaScript slice with non-negative bounds is drop-then-take. -/
theorem jsSlice_nonneg {α : Type} (l : List α) (a p : Int)
    (ha : 0 ≤ a) (hp : 0 ≤ p) :
    jsSlice l a (a + p) = (l.drop a.toNat).take p.toNat := by
  have h1 : ¬ a < 0 := by omega
  have h2 : ¬ a + p < 0 := by omega
  simp only [jsSlice, h1, h2, if_false]
  have hsm : (min a (l.length : Int)).toNat = min a.toNat l.length := by omega
  have hem : (min (a + p) (l.length : Int)).toNat
      = min (a.toNat + p.toNat) l.length := by omega
  rw [hsm, hem, List.drop_take]
  rcases Nat.le_total a.toNat l.length with hle | hge
  · rw [Nat.min_eq_left hle]
    apply List.take_eq_take.mpr
    rw [List.length_drop]
    omega
  · rw [Nat.min_eq_right hge, List.drop_length,
      List.drop_eq_nil_of_le hge]
    simp

/-- Claim C5: for every device list, page and positive page size, the
pagination result carries the item count, a page count equal to
`ceil(total / pageSize)` (as natural ceiling division), the 1-indexed
page slice, and an empty slice (with the same total and page count) for
every page number beyond the page count.  JavaScript evaluates a zero
page size to a non-finite page count, outside the integer model, so the
page size is assumed positive. -/
theorem claim_C5_pagination (devices : List Device) (page pageSize : Int)
    (hps : 1 ≤ pageSize) :
    (paginateDevices devices page pageSize).total = (devices.length : Int) ∧
    (paginateDevices devices page pageSize).totalPages
        = (((devices.length + (pageSize.toNat - 1)) / pageSize.toNat : Nat) : Int) ∧
    (1 ≤ page →
      (paginateDevices devices page pageSize).data
        = (devices.drop ((page - 1) * pageSize).toNat).take pageSize.toNat) ∧
    ((paginateDevices devices page pageSize).totalPages < page →
      (paginateDevices devices page pageSize).data = []) := by
  have hpn : 1 ≤ pageSize.toNat := by omega
  have hcast : ((pageSize.toNat : Nat) : Int) = pageSize := by omega
  have htp : (paginateDevices devices page pageSize).totalPages
      = (((devices.length + (pageSize.toNat - 1)) / pageSize.toNat : Nat) : Int) := by
    show jsCeilDiv (devices.length : Int) pageSize = _
    rw [← hcast]
    exact jsCeilDiv_nat devices.length pageSize.toNat hpn
  refine ⟨rfl, htp, ?_, ?_⟩
  · intro hpage
    show jsSlice devices ((page - 1) * pageSize) ((page - 1) * pageSize + pageSize) = _
    exact jsSlice_nonneg devices _ _
      (mul_nonneg (by omega) (by omega)) (by omega)
  · intro hbeyond
    rw [htp] at hbeyond
    obtain ⟨N, hN⟩ : ∃ N, (devices.length + (pageSize.toNat - 1)) / pageSize.toNat = N :=
      ⟨_, rfl⟩
    rw [hN] at hbeyond
    show jsSlice devices ((page - 1) * pageSize) ((page - 1) * pageSize + pageSize) = []
    rw [jsSlice_nonneg devices _ _ (mul_nonneg (by omega) (by omega)) (by omega)]
    have h := nat_le_ceil_mul devices.length pageSize.toNat hpn
    rw [hN] at h
    have h2 : (devices.length : Int) ≤ ((pageSize.toNat * N : Nat) : Int) := by
      exact_mod_cast h
    push_cast at h2
    rw [hcast] at h2
    have hmono : (pageSize : Int) * (N : Int) ≤ pageSize * (page - 1) :=
      mul_le_mul_of_nonneg_left (by omega) (by omega)
    have hstart : (devices.length : Int) ≤ (page - 1) * pageSize := by
      calc (devices.length : Int)
          ≤ pageSize * (N : Int) := h2
        _ ≤ pageSize * (page - 1) := hmono
        _ = (page - 1) * pageSize := mul_comm _ _
    have hdrop : devices.drop ((page - 1) * pageSize).toNat = [] :=
      List.drop_eq_nil_of_le (by omega)
    rw [hdrop, List.take_nil]

/-- Witness for C5: three devices, page size 2; page 1 is the first two
devices, page 5 is beyond the two pages and comes back empty with the
correct total and page count. -/
theorem claim_C5_witness :
    (paginateDevices c5devices 5 2).total = 3 ∧
    (paginateDevices c5devices 5 2).totalPages = 2 ∧
    (paginateDevices c5devices 5 2).data = [] ∧
    (paginateDevices c5devices 1 2).data = [bareDevice 1 "a", bareDevice 2 "b"] := by
  have h5 := claim_C5_pagination c5devices 5 2 (by decide)
  have h1 := claim_C5_pagination c5devices 1 2 (by decide)
  refine ⟨h5.1, ?_, ?_, ?_⟩
  · rw [h5.2.1]
    decide
  · apply h5.2.2.2
    rw [h5.2.1]
    decide
  · rw [h1.2.2.1 (by decide)]
    decide
